import Mathlib

set_option maxHeartbeats 1000000

/-
Verification of the registration, validation and dispatch-ordering engine of
the napari-plugin-engine repository.  The shallow embedding below translates
`src/naplugi/manager.py` (the `PluginManager` class and its helpers).  The
repository modules `hooks.py`, `implementation.py`, `plugin.py` and
`callers.py` are not part of the provided sources; the few operations of
theirs that the manager calls (`HookCaller._add_hookimpl`,
`HookCaller._remove_plugin`, `HookCaller.set_specification`,
`HookCaller.get_hookimpls`, the `HookResult` wrapper) are modelled from the
specification, and each such definition is marked with a doc comment that
starts with "Modelled from the spec".

Python objects are represented by identity tokens (`Nat`): the manager
compares namespaces with `p.object == obj`, which for modules and classes is
identity comparison.  Python dictionaries (`self.plugins`, the hook relay's
`__dict__`) are represented as association lists with unique keys, mutated at
the first occurrence of a key.  Exceptions are represented by the `PyError`
type and fallible operations return `Except` paired with the manager state
that the mutations have produced by the time the operation returns or raises.
-/

namespace Naplugi

/-- Modelled from the spec: the priority slot of one hook implementation
(`tryfirst` / `trylast` markers; `normal` when neither marker is set). -/
inductive Priority where
  | trylast
  | normal
  | tryfirst
deriving DecidableEq

/-- Modelled from the spec: one hook implementation descriptor (a
`HookImpl`): its hook name, the canonical name of the owning plugin, the
identity of the owning namespace object (`HookImpl.plugin` in the code), its
priority slot, wrapper flag, optional flag and accepted argument names. -/
structure HookImpl where
  specname : String
  pluginName : String
  plugin : Nat
  priority : Priority
  hookwrapper : Bool
  optionalhook : Bool
  argnames : List String
deriving DecidableEq

/-- Modelled from the spec: a bound hook specification: accepted argument
names and the historic / first-result-only / deprecation-warning flags. -/
structure HookSpec where
  argnames : List String
  historic : Bool
  firstresult : Bool
  warnOnImpl : Bool
deriving DecidableEq

/-- A hook caller: the ordered implementation lists registered under one hook
name together with the optional bound specification.  Wrapper
implementations are tracked separately from ordinary ones (spec section 4.2:
"Wrapper implementations do not participate in the call-order list at all -
they are tracked separately"). -/
structure HookCaller where
  name : String
  spec : Option HookSpec
  nonwrappers : List HookImpl
  wrappers : List HookImpl
deriving DecidableEq

/-- `HookCaller.has_spec` from the manager's point of view: whether a
specification has been bound. -/
def HookCaller.has_spec (hc : HookCaller) : Bool :=
  hc.spec.isSome

/-- `HookCaller.is_historic`: whether the bound specification is historic
(`False` when no specification is bound). -/
def HookCaller.is_historic (hc : HookCaller) : Bool :=
  match hc.spec with
  | some s => s.historic
  | none => false

/-- The argument names accepted by the bound specification (the callers of
`_verify_hook` guarantee that a specification is bound; the empty default is
never reached through them). -/
def HookCaller.specArgnames (hc : HookCaller) : List String :=
  match hc.spec with
  | some s => s.argnames
  | none => []

/-- Modelled from the spec: `HookCaller.get_hookimpls`, every implementation
currently held by the caller. -/
def HookCaller.getHookimpls (hc : HookCaller) : List HookImpl :=
  hc.nonwrappers ++ hc.wrappers

/-- Modelled from the spec: `HookCaller.set_specification` stores the
specification descriptor on the caller. -/
def HookCaller.setSpecification (hc : HookCaller) (sp : HookSpec) : HookCaller :=
  { hc with spec := some sp }

/-- Modelled from the spec (section 4.2 ordering rule): insertion of one
implementation into an ordered implementation list.  Try-last
implementations are inserted at index 0; try-first implementations are
appended; default-priority implementations are inserted just after the last
entry that is not try-first, i.e. before the trailing block of try-first
entries.  At call time the list is iterated in reverse
(append-then-reverse-iterate execution). -/
def addImplOrdered (methods : List HookImpl) (hookimpl : HookImpl) : List HookImpl :=
  match hookimpl.priority with
  | .trylast => hookimpl :: methods
  | .tryfirst => methods ++ [hookimpl]
  | .normal =>
      (methods.reverse.dropWhile fun x => decide (x.priority = Priority.tryfirst)).reverse
        ++ hookimpl ::
          (methods.reverse.takeWhile fun x => decide (x.priority = Priority.tryfirst)).reverse

/-- Modelled from the spec: `HookCaller._add_hookimpl` dispatches the new
implementation to the wrapper list or the ordinary list and inserts it
according to the ordering rule. -/
def HookCaller.addHookimpl (hc : HookCaller) (hookimpl : HookImpl) : HookCaller :=
  if hookimpl.hookwrapper then
    { hc with wrappers := addImplOrdered hc.wrappers hookimpl }
  else
    { hc with nonwrappers := addImplOrdered hc.nonwrappers hookimpl }

/-- The hook caller obtained by registering the given implementations, in
order, on a fresh caller with no bound specification. -/
def callerAfterRegistrations (name : String) (impls : List HookImpl) : HookCaller :=
  impls.foldl HookCaller.addHookimpl ⟨name, none, [], []⟩

/-- Modelled from the spec: the execution order of the ordinary
implementations of a caller is the reverse of its implementation list
(append-then-reverse-iterate execution). -/
def executionOrder (hc : HookCaller) : List HookImpl := hc.nonwrappers.reverse

/-- The Python exceptions raised by the manager.  `register` raises plain
`ValueError`s for the two duplicate cases; they are distinguishable by their
message ("Plugin name already registered" / "Plugin module already
registered") and the specification names them `DuplicateNameError` and
`DuplicateObjectError`, so they are modelled as distinct constructors.
`PluginImportError`, `PluginValidationError` and `PluginRegistrationError`
are the `PluginError` subclasses from the exceptions module; each carries the
offending plugin name. -/
inductive PyError where
  | dupNameError (name : String)
  | dupObjectError (object : Nat)
  | valueError (msg : String)
  | importError (pluginName : Option String)
  | validationError (pluginName : Option String)
  | registrationError (pluginName : Option String)
deriving DecidableEq

/-- Whether the exception is an instance of the `PluginError` base class
(only those are caught by the discovery loops' `except PluginError`). -/
def PyError.isPluginError : PyError → Bool
  | .importError _ => true
  | .validationError _ => true
  | .registrationError _ => true
  | _ => false

/-- Keyword arguments of one hook call; values are opaque tokens. -/
abbrev Kwargs := List (String × Nat)

/-- Modelled from the spec: the result object of one overall hook call
(aggregated results plus captured exception information). -/
structure HookResult where
  result : List Nat := []
  excinfo : Option String := none
deriving DecidableEq

/-- Modelled from the spec: `HookResult.from_call` runs the call and captures
success-or-exception as a result object.  Calls in the embedding are pure and
cannot raise, so it evaluates the thunk. -/
def HookResult.from_call (f : Unit → HookResult) : HookResult := f ()

/-- The type of the manager's swappable dispatch function
(`HookExecFunc = Callable[[HookCaller, List[HookImpl], dict], HookResult]`). -/
def HookExecFunc := HookCaller → List HookImpl → Kwargs → HookResult

/-- A plugin record: canonical name, identity of the registered namespace
object (`Plugin.object`), and the names of the hook callers this plugin
contributes to (`Plugin._hookcallers`, a non-owning back-reference used for
unregistration; the relay holds one caller per hook name, so callers are
identified by name). -/
structure Plugin where
  name : String
  object : Nat
  hookcallers : List String
deriving DecidableEq

/-- A namespace offered for registration: its identity token, the canonical
name derived from it (`Plugin.get_canonical_name`), the implementation
descriptors its members carry (`Plugin.iter_implementations`), and the
specification descriptors its members carry (inspected by
`add_hookspecs`). -/
structure PluginNamespace where
  object : Nat
  canonicalName : String
  impls : List HookImpl
  specs : List (String × HookSpec)
deriving DecidableEq

/-- The `PluginManager` state: `self.plugins` (dict, canonical name to plugin
record), `self._blocked` (set of blocked names), the hook relay's hook
callers by name (`self.hook.__dict__`, private attributes excluded), and the
current dispatch indirection `self._inner_hookexec`. -/
structure PluginManager where
  plugins : List (String × Plugin)
  blocked : List String
  hooks : List (String × HookCaller)
  innerHookexec : HookExecFunc

/-- `is_registered` on a string: `obj in self.plugins`. -/
def PluginManager.isRegisteredName (m : PluginManager) (name : String) : Bool :=
  (List.lookup name m.plugins).isSome

/-- `_object_is_registered`: `any(p.object == obj for p in plugins.values())`. -/
def PluginManager.isRegisteredObject (m : PluginManager) (obj : Nat) : Bool :=
  m.plugins.any fun p => p.2.object == obj

/-- `is_blocked`: `plugin_name in self._blocked`. -/
def PluginManager.isBlocked (m : PluginManager) (pluginName : String) : Bool :=
  decide (pluginName ∈ m.blocked)

/-- `get_plugin_for_module`: the first registered plugin whose namespace
object is the given one. -/
def PluginManager.getPluginForModule (m : PluginManager) (obj : Nat) : Option Plugin :=
  (m.plugins.find? fun p => p.2.object == obj).map Prod.snd

/-- `setattr(self.hook, name, hook_caller)`: store a hook caller under its
name, replacing the existing binding if the name is present. -/
def setHookCaller : List (String × HookCaller) → String → HookCaller →
    List (String × HookCaller)
  | [], name, hc => [(name, hc)]
  | (k, v) :: rest, name, hc =>
      if k == name then (name, hc) :: rest else (k, v) :: setHookCaller rest name hc

/-- In-place mutation of the hook caller stored under `name` (a no-op when
the name is absent, which does not occur for the back-references held by a
plugin record). -/
def updateHookCaller : List (String × HookCaller) → String → (HookCaller → HookCaller) →
    List (String × HookCaller)
  | [], _, _ => []
  | (k, v) :: rest, name, f =>
      if k == name then (k, f v) :: rest else (k, v) :: updateHookCaller rest name f

/-- `self.plugins.pop(name)`: remove the binding of `name` from the plugin
dict. -/
def popPlugin : List (String × Plugin) → String → List (String × Plugin)
  | [], _ => []
  | (k, v) :: rest, name => if k == name then rest else (k, v) :: popPlugin rest name

/-- Modelled from the spec: `HookCaller._remove_plugin` removes exactly the
descriptors owned by the given namespace object (by identity), preserving
every other implementation and the relative ordering. -/
def HookCaller.removePlugin (hc : HookCaller) (obj : Nat) : HookCaller :=
  { hc with
      nonwrappers := hc.nonwrappers.filter fun i => !(i.plugin == obj),
      wrappers := hc.wrappers.filter fun i => !(i.plugin == obj) }

/-- The unregistration cleanup loop: `for hook_caller in plugin._hookcallers:
hook_caller._remove_plugin(plugin.object)`. -/
def removeHooksForPlugin (hooks : List (String × HookCaller)) (hcNames : List String)
    (obj : Nat) : List (String × HookCaller) :=
  hcNames.foldl (fun hs n => updateHookCaller hs n (fun hc => hc.removePlugin obj)) hooks

/-- `PluginManager._verify_hook`: an implementation is rejected when the
bound specification is historic and the implementation is a hookwrapper, and
when the implementation declares an argument name that is not among the
specification's argument names (a subset check).  The `warn_on_impl` branch
of the source only emits a warning and never alters control flow, so it is
not modelled. -/
def verifyHook (hook_caller : HookCaller) (hookimpl : HookImpl) : Except PyError Unit :=
  if hook_caller.is_historic && hookimpl.hookwrapper then
    .error (.validationError (some hookimpl.pluginName))
  else if hookimpl.argnames.any (fun a => !(decide (a ∈ hook_caller.specArgnames))) then
    .error (.validationError (some hookimpl.pluginName))
  else
    .ok ()

/-- The registration loop of `PluginManager.register`: for each
implementation carried by the namespace, find or create the hook caller for
its hook name, validate against a bound specification when one exists
(`_verify_hook` may raise, leaving the mutations made so far in place), and
add the implementation; the plugin record's hook-caller back-references
accumulate in `acc`.  `_maybe_apply_history` only replays past calls to the
new implementation and changes no registry state, so it has no effect in the
embedding. -/
def registerLoop : PluginManager → List HookImpl → List String →
    (Except PyError (List String)) × PluginManager
  | m, [], acc => (.ok acc, m)
  | m, hookimpl :: rest, acc =>
      match List.lookup hookimpl.specname m.hooks with
      | none =>
          let hc0 := HookCaller.addHookimpl ⟨hookimpl.specname, none, [], []⟩ hookimpl
          registerLoop { m with hooks := setHookCaller m.hooks hookimpl.specname hc0 }
            rest (acc ++ [hookimpl.specname])
      | some hc =>
          if hc.has_spec then
            match verifyHook hc hookimpl with
            | .error e => (.error e, m)
            | .ok _ =>
                let hc1 := hc.addHookimpl hookimpl
                registerLoop { m with hooks := setHookCaller m.hooks hookimpl.specname hc1 }
                  rest (acc ++ [hookimpl.specname])
          else
            let hc1 := hc.addHookimpl hookimpl
            registerLoop { m with hooks := setHookCaller m.hooks hookimpl.specname hc1 }
              rest (acc ++ [hookimpl.specname])

/-- Modelled from the spec: `Plugin.iter_implementations` yields the
namespace's implementation descriptors with their owner back-references (the
owning plugin's canonical name and the namespace object's identity) bound. -/
def prepImpls (ns : PluginNamespace) (pluginName : String) : List HookImpl :=
  ns.impls.map fun i => { i with pluginName := pluginName, plugin := ns.object }

/-- `PluginManager.register`: resolve the canonical name (`name or
get_canonical_name(namespace)`), return `None` when the name is blocked,
raise the duplicate-name `ValueError` when the name is already registered,
raise the duplicate-object `ValueError` when the namespace object is already
registered under any name, then run the registration loop and persist the
plugin record.  The `dict` normalization branch is not modelled (namespaces
here are already namespace objects).  The second component is the manager
state at return or raise time. -/
def register (m : PluginManager) (ns : PluginNamespace) (name : Option String) :
    (Except PyError (Option String)) × PluginManager :=
  let pluginName := name.getD ns.canonicalName
  if m.isBlocked pluginName then (.ok none, m)
  else if m.isRegisteredName pluginName then (.error (.dupNameError pluginName), m)
  else if m.isRegisteredObject ns.object then (.error (.dupObjectError ns.object), m)
  else
    match registerLoop m (prepImpls ns pluginName) [] with
    | (.error e, m') => (.error e, m')
    | (.ok hcNames, m') =>
        (.ok (some pluginName),
          { m' with plugins := m'.plugins ++ [(pluginName, ⟨pluginName, ns.object, hcNames⟩)] })

/-- The outcome of `PluginManager.unregister`: the warnings it emitted, its
return value or exception, and the manager state it leaves behind. -/
structure UnregResult where
  warnings : List String
  result : Except PyError (Option Plugin)
  manager : PluginManager

/-- `PluginManager.unregister(plugin_name=..., module=...)`: resolve the
plugin record by module identity (warning if `plugin_name` was also given)
or by name; when nothing matches, warn and return `None` without touching
the state; when neither argument is given (`plugin_name` empty, `module`
absent) raise `ValueError`; otherwise pop the record and remove the
plugin's descriptors from every hook caller it references.  The empty string
stands for Python's falsy default `plugin_name=''`. -/
def unregister (m : PluginManager) (pluginName : String) (module : Option Nat) :
    UnregResult :=
  match module with
  | some obj =>
      let w1 : List String :=
        if pluginName ≠ "" then
          ["Both plugin_name and module provided to unregister. Will use module"]
        else []
      match m.getPluginForModule obj with
      | none => ⟨w1 ++ ["No plugins registered for module " ++ toString obj], .ok none, m⟩
      | some p =>
          ⟨w1, .ok (some p),
            { m with plugins := popPlugin m.plugins p.name,
                     hooks := removeHooksForPlugin m.hooks p.hookcallers p.object }⟩
  | none =>
      if pluginName ≠ "" then
        match List.lookup pluginName m.plugins with
        | none => ⟨["No plugins registered under the name " ++ pluginName], .ok none, m⟩
        | some p =>
            ⟨[], .ok (some p),
              { m with plugins := popPlugin m.plugins pluginName,
                       hooks := removeHooksForPlugin m.hooks p.hookcallers p.object }⟩
      else ⟨[], .error (.valueError "One of plugin_name or module must be provided"), m⟩

/-- `PluginManager.set_blocked`: blocking adds the name to `_blocked` and
then unregisters it when currently registered; unblocking removes the name
from `_blocked` when present.  In the pathological state where the empty
string is a registered name, Python's `unregister(plugin_name='')` would
raise `ValueError` after the block was recorded; the embedding keeps the
state that call leaves behind (such a state is unreachable through the API,
which never registers an empty name). -/
def setBlocked (m : PluginManager) (pluginName : String) (blocked : Bool) : PluginManager :=
  if blocked then
    let m' : PluginManager :=
      { m with blocked :=
          if pluginName ∈ m.blocked then m.blocked else m.blocked ++ [pluginName] }
    if m'.isRegisteredName pluginName then (unregister m' pluginName none).manager else m'
  else
    if pluginName ∈ m.blocked then { m with blocked := m.blocked.erase pluginName } else m

/-- The `name[0] != "_"` test of `check_pending`, as a check on the first
character (on the empty string Python's subscript would raise `IndexError`;
attribute names are never empty, and the embedding treats the empty name as
not starting with an underscore). -/
def nameHasUnderscoreHead (s : String) : Bool :=
  s.data.head? == some '_'

/-- The iteration body of `PluginManager.check_pending` over the relay's
`__dict__`: names starting with an underscore are skipped (`name[0] != "_"`;
the relay's private attributes are stored alongside the hook callers); for a
caller without a bound specification, the first implementation that is not
marked optional raises the unknown-hook `PluginValidationError` naming its
plugin. -/
def checkPendingLoop : List (String × HookCaller) → Except PyError Unit
  | [] => .ok ()
  | (name, hc) :: rest =>
      if nameHasUnderscoreHead name then checkPendingLoop rest
      else if hc.has_spec then checkPendingLoop rest
      else
        match hc.getHookimpls.find? (fun i => !i.optionalhook) with
        | some i => .error (.validationError (some i.pluginName))
        | none => checkPendingLoop rest

/-- `PluginManager.check_pending`. -/
def checkPending (m : PluginManager) : Except PyError Unit :=
  checkPendingLoop m.hooks

/-- `PluginManager._hookexec`: every hook call routes through the current
dispatch indirection. -/
def PluginManager.hookexec (m : PluginManager) (caller : HookCaller)
    (methods : List HookImpl) (kwargs : Kwargs) : HookResult :=
  m.innerHookexec caller methods kwargs

/-- `PluginManager.add_hookcall_monitoring`: capture the current dispatch
function as `oldcall`, install a traced dispatch function that calls
`before`, delegates to `oldcall` through `HookResult.from_call`, calls
`after` and returns the outcome; the returned undo closure assigns
`oldcall` back to `_inner_hookexec`. -/
def addHookcallMonitoring (m : PluginManager)
    (before : String → List HookImpl → Kwargs → Unit)
    (after : HookResult → String → List HookImpl → Kwargs → Unit) :
    PluginManager × (PluginManager → PluginManager) :=
  let oldcall := m.innerHookexec
  let traced : HookExecFunc := fun caller impls kwargs =>
    let _ := before caller.name impls kwargs
    let outcome := HookResult.from_call (fun _ => oldcall caller impls kwargs)
    let _ := after outcome caller.name impls kwargs
    outcome
  ({ m with innerHookexec := traced },
   fun s => { s with innerHookexec := oldcall })

instance {ε α : Type} [DecidableEq ε] [DecidableEq α] : DecidableEq (Except ε α) :=
  fun x y =>
    match x, y with
    | .ok a, .ok b =>
        if h : a = b then isTrue (by rw [h])
        else isFalse (by intro hh; injection hh; contradiction)
    | .error a, .error b =>
        if h : a = b then isTrue (by rw [h])
        else isFalse (by intro hh; injection hh; contradiction)
    | .ok _, .error _ => isFalse (by intro hh; exact Except.noConfusion hh)
    | .error _, .ok _ => isFalse (by intro hh; exact Except.noConfusion hh)

/-- One discovery candidate, as the discovery collaborator hands it to the
loop of `load_entrypoints` / `load_modules_by_prefix`: its (entry point or
distribution) name and the outcome of loading it - a namespace object, or a
load failure whose cause is opaque here. -/
structure Candidate where
  name : String
  load : Except Unit PluginNamespace
deriving DecidableEq

/-- `PluginManager._load_and_register`: importing may fail (wrapped into
`PluginImportError`); a module that is already registered by identity
returns `None`; `register` is attempted, re-raising `PluginError`s and
wrapping any other exception into `PluginRegistrationError`.  The source's
check that an entry point resolves to a module or class is not modelled
(candidates here always load to namespace objects). -/
def loadAndRegister (m : PluginManager) (c : Candidate) :
    (Except PyError (Option String)) × PluginManager :=
  match c.load with
  | .error _ => (.error (.importError (some c.name)), m)
  | .ok ns =>
      if m.isRegisteredObject ns.object then (.ok none, m)
      else
        match register m ns (some c.name) with
        | (.ok r, m') => (.ok r, m')
        | (.error e, m') =>
            if e.isPluginError then (.error e, m')
            else (.error (.registrationError (some c.name)), m')

/-- The candidate loop shared by `load_entrypoints` and
`load_modules_by_prefix` (their bodies are identical): skip candidates whose
name is already registered or blocked; on success count the newly registered
module; on a `PluginError`, record the error, block the failing name, and
either continue with the next candidate (`ignore_errors=True`) or re-raise
immediately.  Candidate selection (entry-point group filtering, module
prefix matching, distribution-name resolution) belongs to the discovery
collaborator and happens before this loop. -/
def loadLoop : PluginManager → List Candidate → Nat → List PyError → Bool →
    (Except PyError (Nat × List PyError)) × PluginManager
  | m, [], count, errors, _ => (.ok (count, errors), m)
  | m, c :: rest, count, errors, ignoreErrors =>
      if m.isRegisteredName c.name || m.isBlocked c.name then
        loadLoop m rest count errors ignoreErrors
      else
        match loadAndRegister m c with
        | (.ok r, m') =>
            loadLoop m' rest (count + if r.isSome then 1 else 0) errors ignoreErrors
        | (.error e, m') =>
            if e.isPluginError then
              let m'' := setBlocked m' c.name true
              if ignoreErrors then loadLoop m'' rest count (errors ++ [e]) ignoreErrors
              else (.error e, m'')
            else (.error e, m')

/-- `PluginManager.load_entrypoints` (and, with the same body,
`load_modules_by_prefix`) applied to the candidates the discovery
collaborator produced. -/
def loadEntrypoints (m : PluginManager) (candidates : List Candidate)
    (ignoreErrors : Bool) : (Except PyError (Nat × List PyError)) × PluginManager :=
  loadLoop m candidates 0 [] ignoreErrors

/-- The retroactive validation loop of `add_hookspecs`: verify every
existing implementation of the caller against the freshly bound
specification, raising at the first violation. -/
def verifyAll (hc : HookCaller) : List HookImpl → Except PyError Unit
  | [] => .ok ()
  | i :: rest =>
      match verifyHook hc i with
      | .error e => .error e
      | .ok _ => verifyAll hc rest

/-- The member loop of `PluginManager.add_hookspecs`: for every
specification-marked member, create the hook caller with the specification
bound when the name is new; otherwise bind the specification onto the
existing caller (which may already hold implementations registered without
a known specification) and only then retroactively validate every existing
implementation - a validation failure raises with the specification already
bound.  `names` accumulates the specification names found. -/
def addSpecsLoop : PluginManager → List (String × HookSpec) → List String →
    (Except PyError (List String)) × PluginManager
  | m, [], names => (.ok names, m)
  | m, (name, sp) :: rest, names =>
      match List.lookup name m.hooks with
      | none =>
          addSpecsLoop
            { m with hooks := setHookCaller m.hooks name ⟨name, some sp, [], []⟩ }
            rest (names ++ [name])
      | some hc =>
          let hc' := hc.setSpecification sp
          let m' : PluginManager := { m with hooks := setHookCaller m.hooks name hc' }
          match verifyAll hc' hc'.getHookimpls with
          | .error e => (.error e, m')
          | .ok _ => addSpecsLoop m' rest (names ++ [name])

/-- `PluginManager.add_hookspecs`: run the member loop; when no
specification-marked member was found, raise `ValueError`. -/
def addHookspecs (m : PluginManager) (ns : PluginNamespace) :
    (Except PyError Unit) × PluginManager :=
  match addSpecsLoop m ns.specs [] with
  | (.error e, m') => (.error e, m')
  | (.ok names, m') =>
      if names.isEmpty then (.error (.valueError "did not find any hooks in namespace"), m')
      else (.ok (), m')

/- ### Concrete fixtures used by counterexamples and witnesses -/

/-- A dispatch function for concrete manager states. -/
def trivialExec : HookExecFunc := fun _ _ _ => {}

/-- A manager with nothing registered. -/
def emptyManager : PluginManager := ⟨[], [], [], trivialExec⟩

/-- A manager with two plugins registered: namespace object 0 under the name
"A" and namespace object 1 under the name "B". -/
def twoPluginManager : PluginManager :=
  ⟨[("A", ⟨"A", 0, []⟩), ("B", ⟨"B", 1, []⟩)], [], [], trivialExec⟩

/-- The already-registered namespace object 0 offered again for
registration. -/
def nsObjectZero : PluginNamespace := ⟨0, "X", [], []⟩

/-- A namespace object 7 whose canonical name collides with the registered
name "A". -/
def nsNameA : PluginNamespace := ⟨7, "A", [], []⟩

/-- A historic specification. -/
def historicSpec : HookSpec := ⟨["x"], true, false, false⟩

/-- A caller bound to a historic specification. -/
def historicCaller : HookCaller := ⟨"h", some historicSpec, [], []⟩

/-- A hookwrapper implementation. -/
def wrapperImpl : HookImpl := ⟨"h", "p", 0, Priority.normal, true, false, []⟩

/-- A non-optional implementation of the underscore-named hook. -/
def underscoreImpl : HookImpl := ⟨"_x", "p6", 0, Priority.normal, false, false, []⟩

/-- A caller named with a leading underscore, no specification, one
non-optional implementation. -/
def underscoreCaller : HookCaller := ⟨"_x", none, [underscoreImpl], []⟩

/-- A manager whose only hook caller has an underscore name. -/
def underscoreManager : PluginManager := ⟨[], [], [("_x", underscoreCaller)], trivialExec⟩

/-- A discovery candidate whose load fails. -/
def badCandidate : Candidate := ⟨"bad", .error ()⟩

/-- An implementation owned by namespace object 5. -/
def ownedImpl : HookImpl := ⟨"h", "p9", 5, Priority.normal, false, false, []⟩

/-- An implementation owned by namespace object 6. -/
def otherImpl : HookImpl := ⟨"h", "q9", 6, Priority.normal, false, false, []⟩

/-- A caller holding implementations of two different plugins. -/
def sharedCaller : HookCaller := ⟨"h", none, [ownedImpl, otherImpl], []⟩

/-- The plugin record owning namespace object 5 and contributing to hook
"h". -/
def pluginP9 : Plugin := ⟨"p9", 5, ["h"]⟩

/-- A manager with one registered plugin participating in a shared hook
caller. -/
def sharedManager : PluginManager := ⟨[("p9", pluginP9)], [], [("h", sharedCaller)], trivialExec⟩

/-- An implementation requesting argument "x". -/
def argXImpl : HookImpl := ⟨"h", "p10", 3, Priority.normal, false, false, ["x"]⟩

/-- A spec-less caller already holding `argXImpl`. -/
def pendingCaller : HookCaller := ⟨"h", none, [argXImpl], []⟩

/-- A specification accepting no arguments (invalidates `argXImpl`). -/
def emptySpec : HookSpec := ⟨[], false, false, false⟩

/-- A manager holding the spec-less `pendingCaller`. -/
def pendingManager : PluginManager := ⟨[], [], [("h", pendingCaller)], trivialExec⟩

/-- A namespace declaring the empty specification for hook "h". -/
def specNamespace : PluginNamespace := ⟨9, "specns", [], [("h", emptySpec)]⟩

/- ### List helpers for the ordering proof -/

theorem takeWhile_front {α : Type} (p : α → Bool) :
    ∀ (xs ys : List α), (∀ x ∈ xs, p x = true) → (∀ y ∈ ys, p y = false) →
      (xs ++ ys).takeWhile p = xs := by
  intro xs ys hxs hys
  induction xs with
  | nil =>
      simp only [List.nil_append]
      cases ys with
      | nil => rfl
      | cons y ys =>
          have hy := hys y (by simp)
          simp [List.takeWhile_cons, hy]
  | cons x xs ih =>
      have hx := hxs x (by simp)
      simp only [List.cons_append, List.takeWhile_cons, hx]
      simp only [if_true]
      have := ih (fun a ha => hxs a (by simp [ha]))
      simp [this]

theorem dropWhile_front {α : Type} (p : α → Bool) :
    ∀ (xs ys : List α), (∀ x ∈ xs, p x = true) → (∀ y ∈ ys, p y = false) →
      (xs ++ ys).dropWhile p = ys := by
  intro xs ys hxs hys
  induction xs with
  | nil =>
      simp only [List.nil_append]
      cases ys with
      | nil => rfl
      | cons y ys =>
          have hy := hys y (by simp)
          simp [List.dropWhile_cons, hy]
  | cons x xs ih =>
      have hx := hxs x (by simp)
      simp only [List.cons_append, List.dropWhile_cons, hx]
      simp only [if_true]
      exact ih (fun a ha => hxs a (by simp [ha]))

theorem addImplOrdered_normal (A B C : List HookImpl) (i : HookImpl)
    (hi : i.priority = Priority.normal)
    (hA : ∀ x ∈ A, x.priority = Priority.trylast)
    (hB : ∀ x ∈ B, x.priority = Priority.normal)
    (hC : ∀ x ∈ C, x.priority = Priority.tryfirst) :
    addImplOrdered (A ++ B ++ C) i = A ++ (B ++ [i]) ++ C := by
  have hrev : (A ++ B ++ C).reverse = C.reverse ++ (B.reverse ++ A.reverse) := by
    simp [List.reverse_append]
  have hCtrue : ∀ x ∈ C.reverse, (decide (x.priority = Priority.tryfirst)) = true := by
    intro x hx
    simp only [List.mem_reverse] at hx
    simp [hC x hx]
  have hBAfalse : ∀ y ∈ B.reverse ++ A.reverse,
      (decide (y.priority = Priority.tryfirst)) = false := by
    intro y hy
    rcases List.mem_append.mp hy with h | h
    · simp only [List.mem_reverse] at h
      simp [hB y h]
    · simp only [List.mem_reverse] at h
      simp [hA y h]
  have htake : (A ++ B ++ C).reverse.takeWhile
      (fun x => decide (x.priority = Priority.tryfirst)) = C.reverse := by
    rw [hrev]
    exact takeWhile_front _ _ _ hCtrue hBAfalse
  have hdrop : (A ++ B ++ C).reverse.dropWhile
      (fun x => decide (x.priority = Priority.tryfirst)) = B.reverse ++ A.reverse := by
    rw [hrev]
    exact dropWhile_front _ _ _ hCtrue hBAfalse
  unfold addImplOrdered
  rw [hi]
  rw [hrev, takeWhile_front _ _ _ hCtrue hBAfalse, dropWhile_front _ _ _ hCtrue hBAfalse]
  simp [List.reverse_append]

theorem foldl_addImplOrdered_shape :
    ∀ (impls A B C : List HookImpl),
      (∀ x ∈ A, x.priority = Priority.trylast) →
      (∀ x ∈ B, x.priority = Priority.normal) →
      (∀ x ∈ C, x.priority = Priority.tryfirst) →
      ∃ A' C', impls.foldl addImplOrdered (A ++ B ++ C)
          = A' ++ (B ++ impls.filter fun i => decide (i.priority = Priority.normal)) ++ C'
        ∧ (∀ x ∈ A', x.priority = Priority.trylast)
        ∧ (∀ x ∈ C', x.priority = Priority.tryfirst) := by
  intro impls
  induction impls with
  | nil =>
      intro A B C hA hB hC
      exact ⟨A, C, by simp, hA, hC⟩
  | cons i impls ih =>
      intro A B C hA hB hC
      rw [List.foldl_cons]
      cases hi : i.priority with
      | trylast =>
          have hstep : addImplOrdered (A ++ B ++ C) i = (i :: A) ++ B ++ C := by
            unfold addImplOrdered; rw [hi]; simp
          rw [hstep]
          obtain ⟨A', C', heq, hA', hC'⟩ := ih (i :: A) B C
            (by intro x hx; rcases List.mem_cons.mp hx with h | h
                · subst h; exact hi
                · exact hA x h) hB hC
          refine ⟨A', C', ?_, hA', hC'⟩
          rw [heq]
          have : (List.filter (fun i => decide (i.priority = Priority.normal)) (i :: impls))
              = List.filter (fun i => decide (i.priority = Priority.normal)) impls := by
            simp [List.filter_cons, hi]
          rw [this]
      | tryfirst =>
          have hstep : addImplOrdered (A ++ B ++ C) i = A ++ B ++ (C ++ [i]) := by
            unfold addImplOrdered; rw [hi]; simp
          rw [hstep]
          obtain ⟨A', C', heq, hA', hC'⟩ := ih A B (C ++ [i]) hA hB
            (by intro x hx; rcases List.mem_append.mp hx with h | h
                · exact hC x h
                · simp only [List.mem_singleton] at h; subst h; exact hi)
          refine ⟨A', C', ?_, hA', hC'⟩
          rw [heq]
          have : (List.filter (fun i => decide (i.priority = Priority.normal)) (i :: impls))
              = List.filter (fun i => decide (i.priority = Priority.normal)) impls := by
            simp [List.filter_cons, hi]
          rw [this]
      | normal =>
          rw [addImplOrdered_normal A B C i hi hA hB hC]
          obtain ⟨A', C', heq, hA', hC'⟩ := ih A (B ++ [i]) C hA
            (by intro x hx; rcases List.mem_append.mp hx with h | h
                · exact hB x h
                · simp only [List.mem_singleton] at h; subst h; exact hi) hC
          refine ⟨A', C', ?_, hA', hC'⟩
          rw [heq]
          have : (List.filter (fun i => decide (i.priority = Priority.normal)) (i :: impls))
              = i :: List.filter (fun i => decide (i.priority = Priority.normal)) impls := by
            simp [List.filter_cons, hi]
          rw [this]
          simp

theorem foldl_addHookimpl_nonwrappers :
    ∀ (impls : List HookImpl) (hc : HookCaller),
      (impls.foldl HookCaller.addHookimpl hc).nonwrappers
        = (impls.filter fun i => !i.hookwrapper).foldl addImplOrdered hc.nonwrappers := by
  intro impls
  induction impls with
  | nil => intro hc; simp
  | cons i impls ih =>
      intro hc
      rw [List.foldl_cons]
      cases hw : i.hookwrapper with
      | true =>
          have h1 : HookCaller.addHookimpl hc i
              = { hc with wrappers := addImplOrdered hc.wrappers i } := by
            simp [HookCaller.addHookimpl, hw]
          have h2 : (List.filter (fun i => !i.hookwrapper) (i :: impls))
              = List.filter (fun i => !i.hookwrapper) impls := by
            simp [List.filter_cons, hw]
          rw [h1, h2, ih]
      | false =>
          have h1 : HookCaller.addHookimpl hc i
              = { hc with nonwrappers := addImplOrdered hc.nonwrappers i } := by
            simp [HookCaller.addHookimpl, hw]
          have h2 : (List.filter (fun i => !i.hookwrapper) (i :: impls))
              = i :: List.filter (fun i => !i.hookwrapper) impls := by
            simp [List.filter_cons, hw]
          rw [h1, h2, List.foldl_cons, ih]

theorem filter_eq_self_of_all {α : Type} (p : α → Bool) :
    ∀ (l : List α), (∀ x ∈ l, p x = true) → l.filter p = l := by
  intro l h
  induction l with
  | nil => rfl
  | cons x l ih =>
      have hx := h x (by simp)
      simp only [List.filter_cons, hx, if_true]
      rw [ih (fun a ha => h a (by simp [ha]))]

theorem filter_eq_nil_of_all {α : Type} (p : α → Bool) :
    ∀ (l : List α), (∀ x ∈ l, p x = false) → l.filter p = [] := by
  intro l h
  induction l with
  | nil => rfl
  | cons x l ih =>
      have hx := h x (by simp)
      simp only [List.filter_cons, hx, if_false]
      exact ih (fun a ha => h a (by simp [ha]))

theorem filter_three_blocks (T N L : List HookImpl)
    (hT : ∀ x ∈ T, x.priority = Priority.tryfirst)
    (hN : ∀ x ∈ N, x.priority = Priority.normal)
    (hL : ∀ x ∈ L, x.priority = Priority.trylast) :
    (T ++ N ++ L).filter (fun i => decide (i.priority = Priority.tryfirst)) = T
    ∧ (T ++ N ++ L).filter (fun i => decide (i.priority = Priority.normal)) = N
    ∧ (T ++ N ++ L).filter (fun i => decide (i.priority = Priority.trylast)) = L := by
  refine ⟨?_, ?_, ?_⟩
  · simp only [List.filter_append]
    rw [filter_eq_self_of_all _ T (by intro x hx; simp [hT x hx]),
        filter_eq_nil_of_all _ N (by intro x hx; simp [hN x hx]),
        filter_eq_nil_of_all _ L (by intro x hx; simp [hL x hx])]
    simp
  · simp only [List.filter_append]
    rw [filter_eq_nil_of_all _ T (by intro x hx; simp [hT x hx]),
        filter_eq_self_of_all _ N (by intro x hx; simp [hN x hx]),
        filter_eq_nil_of_all _ L (by intro x hx; simp [hL x hx])]
    simp
  · simp only [List.filter_append]
    rw [filter_eq_nil_of_all _ T (by intro x hx; simp [hT x hx]),
        filter_eq_nil_of_all _ N (by intro x hx; simp [hN x hx]),
        filter_eq_self_of_all _ L (by intro x hx; simp [hL x hx])]
    simp

/-- C2: in the execution order of any hook caller's ordinary implementation
list (built by registering any mixture of implementations in any order),
every try-first implementation precedes every default-priority
implementation and every try-last implementation follows every
default-priority implementation - the execution order decomposes into the
try-first block, then the default block, then the try-last block - and the
default-priority implementations run in reverse registration order (most
recently registered first). -/
theorem hookCaller_ordering_rule (name : String) (impls : List HookImpl) :
    executionOrder (callerAfterRegistrations name impls)
      = (executionOrder (callerAfterRegistrations name impls)).filter
            (fun i => decide (i.priority = Priority.tryfirst))
        ++ (executionOrder (callerAfterRegistrations name impls)).filter
            (fun i => decide (i.priority = Priority.normal))
        ++ (executionOrder (callerAfterRegistrations name impls)).filter
            (fun i => decide (i.priority = Priority.trylast))
    ∧ (executionOrder (callerAfterRegistrations name impls)).filter
          (fun i => decide (i.priority = Priority.normal))
        = ((impls.filter fun i => !i.hookwrapper).filter
            fun i => decide (i.priority = Priority.normal)).reverse := by
  have hnw : (callerAfterRegistrations name impls).nonwrappers
      = (impls.filter fun i => !i.hookwrapper).foldl addImplOrdered [] :=
    foldl_addHookimpl_nonwrappers impls _
  obtain ⟨A', C', heq, hA', hC'⟩ :=
    foldl_addImplOrdered_shape (impls.filter fun i => !i.hookwrapper) [] [] []
      (by simp) (by simp) (by simp)
  simp only [List.nil_append, List.append_nil] at heq
  have hN : ∀ x ∈ (impls.filter fun i => !i.hookwrapper).filter
      (fun i => decide (i.priority = Priority.normal)), x.priority = Priority.normal := by
    intro x hx
    have := (List.mem_filter.mp hx).2
    simpa using this
  have hexec : executionOrder (callerAfterRegistrations name impls)
      = C'.reverse
        ++ ((impls.filter fun i => !i.hookwrapper).filter
              fun i => decide (i.priority = Priority.normal)).reverse
        ++ A'.reverse := by
    rw [executionOrder, hnw, heq]
    simp [List.reverse_append]
  have hCrev : ∀ x ∈ C'.reverse, x.priority = Priority.tryfirst := by
    intro x hx; exact hC' x (List.mem_reverse.mp hx)
  have hArev : ∀ x ∈ A'.reverse, x.priority = Priority.trylast := by
    intro x hx; exact hA' x (List.mem_reverse.mp hx)
  have hNrev : ∀ x ∈ ((impls.filter fun i => !i.hookwrapper).filter
      (fun i => decide (i.priority = Priority.normal))).reverse,
      x.priority = Priority.normal := by
    intro x hx; exact hN x (List.mem_reverse.mp hx)
  obtain ⟨eT, eN, eL⟩ := filter_three_blocks C'.reverse
    ((impls.filter fun i => !i.hookwrapper).filter
      (fun i => decide (i.priority = Priority.normal))).reverse
    A'.reverse hCrev hNrev hArev
  constructor
  · rw [hexec, eT, eN, eL]
  · rw [hexec, eN]

/-- C4: validation against a bound specification rejects a hookwrapper when
the specification is historic, rejects any implementation declaring an
argument name absent from the specification's argument names, and accepts
any implementation whose declared argument names are a subset (in
particular a strict subset) of the specification's, provided the
historic-hookwrapper conflict is absent. -/
theorem verifyHook_validation_rule (hc : HookCaller) (hookimpl : HookImpl) :
    (hc.is_historic = true → hookimpl.hookwrapper = true →
       verifyHook hc hookimpl = .error (.validationError (some hookimpl.pluginName)))
    ∧ ((∃ a ∈ hookimpl.argnames, a ∉ hc.specArgnames) →
       verifyHook hc hookimpl = .error (.validationError (some hookimpl.pluginName)))
    ∧ (¬(hc.is_historic = true ∧ hookimpl.hookwrapper = true) →
       (∀ a ∈ hookimpl.argnames, a ∈ hc.specArgnames) →
       verifyHook hc hookimpl = .ok ()) := by
  refine ⟨?_, ?_, ?_⟩
  · intro h1 h2
    simp [verifyHook, h1, h2]
  · rintro ⟨a, ha, hna⟩
    by_cases hw : (hc.is_historic && hookimpl.hookwrapper) = true
    · simp [verifyHook, hw]
    · have hany : hookimpl.argnames.any (fun a => !(decide (a ∈ hc.specArgnames))) = true := by
        simp only [List.any_eq_true]
        exact ⟨a, ha, by simp [hna]⟩
      simp [verifyHook, hw, hany]
  · intro h1 h2
    have hb : (hc.is_historic && hookimpl.hookwrapper) = false := by
      cases hh : hc.is_historic <;> cases hw : hookimpl.hookwrapper <;> simp_all
    have hany : hookimpl.argnames.any (fun a => !(decide (a ∈ hc.specArgnames))) = false := by
      cases h : hookimpl.argnames.any (fun a => !(decide (a ∈ hc.specArgnames))) with
      | false => rfl
      | true =>
          exfalso
          obtain ⟨a, ha, hpa⟩ := List.any_eq_true.mp h
          simp only [Bool.not_eq_true', decide_eq_false_iff_not] at hpa
          exact hpa (h2 a ha)
    simp [verifyHook, hb, hany]

/-- C4 witness: the historic-hookwrapper conflict is rejected on a concrete
caller and implementation. -/
theorem verifyHook_validation_rule_witness :
    verifyHook historicCaller wrapperImpl
      = .error (.validationError (some wrapperImpl.pluginName)) :=
  (verifyHook_validation_rule historicCaller wrapperImpl).1 (by decide) (by decide)

/-- C5: the undo closure returned by `add_hookcall_monitoring` restores the
previous dispatch function exactly: applying it to the monitored manager
(or to any later state) sets `_inner_hookexec` back to the captured
pre-monitoring dispatch function, so every hook call after the undo
produces the same result as before the monitoring was installed; nested
install/undo pairs restore in LIFO order. -/
theorem addHookcallMonitoring_undo_roundtrip (m : PluginManager)
    (before : String → List HookImpl → Kwargs → Unit)
    (after : HookResult → String → List HookImpl → Kwargs → Unit) :
    ((addHookcallMonitoring m before after).2
        ((addHookcallMonitoring m before after).1)).innerHookexec = m.innerHookexec
    ∧ (∀ s : PluginManager,
        ((addHookcallMonitoring m before after).2 s).innerHookexec = m.innerHookexec)
    ∧ (∀ caller methods kwargs,
        PluginManager.hookexec
            ((addHookcallMonitoring m before after).2
              ((addHookcallMonitoring m before after).1)) caller methods kwargs
          = m.hookexec caller methods kwargs)
    ∧ (∀ before2 after2,
        ((addHookcallMonitoring m before after).2
            ((addHookcallMonitoring
                ((addHookcallMonitoring m before after).1) before2 after2).2
              ((addHookcallMonitoring
                  ((addHookcallMonitoring m before after).1) before2 after2).1))).innerHookexec
          = m.innerHookexec) :=
  ⟨rfl, fun _ => rfl, fun _ _ _ => rfl, fun _ _ => rfl⟩

/-- C1 counterexample: in a reachable registry state (plugins "A" and "B"
registered for namespace objects 0 and 1), registering namespace object 0 -
already registered under "A" - with the requested name "B" raises the
duplicate-name error, not the duplicate-object error the claim requires for
every registration of an already-registered namespace object. -/
theorem register_object_duplicate_counterexample :
    twoPluginManager.isRegisteredObject nsObjectZero.object = true
    ∧ twoPluginManager.isBlocked "B" = false
    ∧ (register twoPluginManager nsObjectZero (some "B")).1
        = Except.error (PyError.dupNameError "B")
    ∧ (register twoPluginManager nsObjectZero (some "B")).1
        ≠ Except.error (PyError.dupObjectError nsObjectZero.object) := by
  refine ⟨by decide, by decide, by decide, by decide⟩

/-- C1 amended: provided the resolved canonical name is not blocked,
`register` raises the duplicate-name error when that name is already
registered, and raises the duplicate-object error when the namespace object
is already registered under any name and the resolved name itself is not
already taken (the blocked check returns null first, and the duplicate-name
check takes precedence over the duplicate-object check); both are raised
synchronously by `register` itself, before any registry mutation. -/
theorem register_duplicate_errors (m : PluginManager) (ns : PluginNamespace)
    (name : Option String)
    (hb : m.isBlocked (name.getD ns.canonicalName) = false) :
    (m.isRegisteredName (name.getD ns.canonicalName) = true →
       register m ns name
         = (.error (.dupNameError (name.getD ns.canonicalName)), m))
    ∧ (m.isRegisteredName (name.getD ns.canonicalName) = false →
       m.isRegisteredObject ns.object = true →
       register m ns name = (.error (.dupObjectError ns.object), m)) := by
  constructor
  · intro hr
    simp [register, hb, hr]
  · intro hr ho
    simp [register, hb, hr, ho]

/-- C1 witness: the duplicate-name error is raised on a concrete registry
state via the amended rule. -/
theorem register_duplicate_errors_witness :
    register twoPluginManager nsNameA none
      = (.error (.dupNameError "A"), twoPluginManager) :=
  (register_duplicate_errors twoPluginManager nsNameA none (by decide)).1 (by decide)

theorem unregister_preserves_blocked (m : PluginManager) (n : String) (mod : Option Nat) :
    (unregister m n mod).manager.blocked = m.blocked := by
  unfold unregister
  cases mod with
  | some obj =>
      cases hp : m.getPluginForModule obj <;> simp [hp]
  | none =>
      by_cases h : n = ""
      · simp [h]
      · cases hp : List.lookup n m.plugins <;> simp [h, hp]

theorem unregister_found (m : PluginManager) (n : String) (p : Plugin) (hne : n ≠ "")
    (hp : List.lookup n m.plugins = some p) :
    unregister m n none =
      ⟨[], .ok (some p),
        { m with plugins := popPlugin m.plugins n,
                 hooks := removeHooksForPlugin m.hooks p.hookcallers p.object }⟩ := by
  unfold unregister
  simp [hne, hp]

theorem unregister_name_missing (m : PluginManager) (n : String) (hne : n ≠ "")
    (hp : List.lookup n m.plugins = none) :
    unregister m n none = ⟨["No plugins registered under the name " ++ n], .ok none, m⟩ := by
  unfold unregister
  simp [hne, hp]

theorem unregister_module_missing (m : PluginManager) (obj : Nat)
    (h : m.getPluginForModule obj = none) :
    unregister m "" (some obj)
      = ⟨["No plugins registered for module " ++ toString obj], .ok none, m⟩ := by
  unfold unregister
  simp [h]

theorem lookup_eq_none_of_not_mem_keys {β : Type} (l : List (String × β)) (n : String)
    (h : n ∉ l.map Prod.fst) : List.lookup n l = none := by
  induction l with
  | nil => rfl
  | cons kv rest ih =>
      obtain ⟨k, v⟩ := kv
      simp only [List.map_cons, List.mem_cons, not_or] at h
      have hk : (n == k) = false := by
        simp only [beq_eq_false_iff_ne, ne_eq]
        exact h.1
      simp [List.lookup, hk, ih h.2]

theorem lookup_popPlugin_self (l : List (String × Plugin)) (n : String)
    (h : (l.map Prod.fst).Nodup) : List.lookup n (popPlugin l n) = none := by
  induction l with
  | nil => rfl
  | cons kv rest ih =>
      obtain ⟨k, v⟩ := kv
      simp only [List.map_cons, List.nodup_cons] at h
      by_cases hk : k = n
      · subst hk
        simp only [popPlugin, beq_self_eq_true, if_true]
        exact lookup_eq_none_of_not_mem_keys rest k h.1
      · have hbeq : (k == n) = false := by simp [hk]
        have hbeq' : (n == k) = false := by
          simp only [beq_eq_false_iff_ne, ne_eq]
          exact fun hnk => hk hnk.symm
        simp only [popPlugin, hbeq, Bool.false_eq_true, if_false]
        simp [List.lookup, hbeq', ih h.2]

theorem setBlocked_false_unblocks (X : PluginManager) (n : String)
    (hmem : n ∈ X.blocked) (hnd : X.blocked.Nodup) :
    (setBlocked X n false).isBlocked n = false := by
  have hnotmem : n ∉ X.blocked.erase n := fun hcon =>
    ((List.Nodup.mem_erase_iff hnd).mp hcon).1 rfl
  simp [setBlocked, hmem, PluginManager.isBlocked, hnotmem]

theorem register_returns_none_of_blocked (m : PluginManager) (ns : PluginNamespace)
    (name : Option String) (h : m.isBlocked (name.getD ns.canonicalName) = true) :
    register m ns name = (.ok none, m) := by
  simp [register, h]

/-- C3: blocking a plugin name removes its registration (when present),
records the block, and while the block is active every `register` call whose
resolved canonical name is the blocked name returns `None` without raising
and without any registry mutation; removing the block makes the name
available again.  The no-duplicate-key hypotheses state that the Python
dict/set representations hold no duplicate entries. -/
theorem setBlocked_blocks_registration (m : PluginManager) (n : String)
    (hnd : (m.plugins.map Prod.fst).Nodup) (hbl : m.blocked.Nodup) (hne : n ≠ "") :
    List.lookup n (setBlocked m n true).plugins = none
    ∧ (setBlocked m n true).isBlocked n = true
    ∧ (∀ (m₂ : PluginManager) (ns : PluginNamespace) (nm : Option String),
        m₂.isBlocked n = true → nm.getD ns.canonicalName = n →
        register m₂ ns nm = (.ok none, m₂))
    ∧ (setBlocked (setBlocked m n true) n false).isBlocked n = false := by
  have hblocked' : (setBlocked m n true).blocked
      = (if n ∈ m.blocked then m.blocked else m.blocked ++ [n]) := by
    unfold setBlocked
    simp only [if_true]
    by_cases hreg : PluginManager.isRegisteredName
        { m with blocked := if n ∈ m.blocked then m.blocked else m.blocked ++ [n] } n = true
    · rw [if_pos hreg, unregister_preserves_blocked]
    · rw [if_neg hreg]
  have hmem : n ∈ (if n ∈ m.blocked then m.blocked else m.blocked ++ [n]) := by
    by_cases hn : n ∈ m.blocked
    · rw [if_pos hn]; exact hn
    · simp [hn]
  have hnodup' : (if n ∈ m.blocked then m.blocked else m.blocked ++ [n]).Nodup := by
    by_cases hn : n ∈ m.blocked
    · rw [if_pos hn]; exact hbl
    · simp only [hn, if_false]
      simp [List.nodup_append, hbl, hn]
  refine ⟨?_, ?_, ?_, ?_⟩
  · unfold setBlocked
    simp only [if_true]
    by_cases hreg : PluginManager.isRegisteredName
        { m with blocked := if n ∈ m.blocked then m.blocked else m.blocked ++ [n] } n = true
    · rw [if_pos hreg]
      simp only [PluginManager.isRegisteredName] at hreg
      obtain ⟨p, hp⟩ := Option.isSome_iff_exists.mp hreg
      rw [unregister_found
            { m with blocked := if n ∈ m.blocked then m.blocked else m.blocked ++ [n] }
            n p hne hp]
      exact lookup_popPlugin_self _ _ hnd
    · rw [if_neg hreg]
      simp only [PluginManager.isRegisteredName] at hreg
      exact Option.not_isSome_iff_eq_none.mp hreg
  · simp [PluginManager.isBlocked, hblocked', hmem]
  · intro m₂ ns nm hb hres
    apply register_returns_none_of_blocked
    rw [hres]
    exact hb
  · refine setBlocked_false_unblocks _ n ?_ ?_
    · rw [hblocked']; exact hmem
    · rw [hblocked']; exact hnodup'

/-- C3 witness: blocking the registered name "A" on a concrete manager
records the block. -/
theorem setBlocked_blocks_registration_witness :
    (setBlocked twoPluginManager "A" true).isBlocked "A" = true :=
  (setBlocked_blocks_registration twoPluginManager "A" (by decide) (by decide)
    (by decide)).2.1

/-- C8: unregistering a name that is not registered, or a namespace object
that no registered plugin wraps, emits a warning and returns `None` without
raising and with the registry state left exactly as it was. -/
theorem unregister_missing_warns_returns_none (m : PluginManager) (n : String) (obj : Nat)
    (hne : n ≠ "") (hn : List.lookup n m.plugins = none)
    (hobj : ∀ p ∈ m.plugins, p.2.object ≠ obj) :
    unregister m n none = ⟨["No plugins registered under the name " ++ n], .ok none, m⟩
    ∧ unregister m "" (some obj)
        = ⟨["No plugins registered for module " ++ toString obj], .ok none, m⟩ := by
  constructor
  · exact unregister_name_missing m n hne hn
  · apply unregister_module_missing
    have hfind : (m.plugins.find? fun p => p.2.object == obj) = none := by
      rw [List.find?_eq_none]
      intro p hp
      simp [hobj p hp]
    simp [PluginManager.getPluginForModule, hfind]

/-- C8 witness: unregistering the never-registered name "x" on the empty
manager warns and returns `None` with the state unchanged. -/
theorem unregister_missing_warns_returns_none_witness :
    unregister emptyManager "x" none
      = ⟨["No plugins registered under the name x"], .ok none, emptyManager⟩ :=
  (unregister_missing_warns_returns_none emptyManager "x" 0 (by decide) rfl
    (by intro p hp; simp [emptyManager] at hp)).1

/-- C6 counterexample: `check_pending` skips every hook name whose first
character is an underscore (`name[0] != "_"` in the source), so a known
spec-less hook named "_x" with a non-optional implementation does not make
`check_pending` raise, contradicting the claimed "if and only if". -/
theorem checkPending_underscore_counterexample :
    checkPending underscoreManager = Except.ok ()
    ∧ ("_x", underscoreCaller) ∈ underscoreManager.hooks
    ∧ underscoreCaller.spec = none
    ∧ underscoreImpl ∈ underscoreCaller.getHookimpls
    ∧ underscoreImpl.optionalhook = false := by
  refine ⟨by decide, by decide, by decide, by decide, by decide⟩

theorem checkPendingLoop_ok_iff (l : List (String × HookCaller)) :
    checkPendingLoop l = .ok () ↔
      ∀ x ∈ l, nameHasUnderscoreHead x.1 = false → x.2.spec = none →
        ∀ i ∈ x.2.getHookimpls, i.optionalhook = true := by
  induction l with
  | nil => simp [checkPendingLoop]
  | cons kv rest ih =>
      obtain ⟨name, hc⟩ := kv
      by_cases hu : nameHasUnderscoreHead name
      · simp only [checkPendingLoop, hu, if_true]
        rw [ih]
        constructor
        · intro h x hx
          rcases List.mem_cons.mp hx with h1 | h1
          · subst h1
            intro hstart
            rw [hu] at hstart
            exact absurd hstart (by simp)
          · exact h x h1
        · intro h x hx
          exact h x (List.mem_cons_of_mem _ hx)
      · have hu' : nameHasUnderscoreHead name = false := by simp [hu]
        by_cases hs : hc.has_spec
        · have hspec : hc.spec.isSome = true := hs
          simp only [checkPendingLoop, hu', Bool.false_eq_true, if_false, hs, if_true]
          rw [ih]
          constructor
          · intro h x hx
            rcases List.mem_cons.mp hx with h1 | h1
            · subst h1
              intro _ hnone
              rw [hnone] at hspec
              exact absurd hspec (by simp)
            · exact h x h1
          · intro h x hx
            exact h x (List.mem_cons_of_mem _ hx)
        · have hnone : hc.spec = none := by
            rcases hsp : hc.spec with _ | s
            · rfl
            · exact absurd (by simp [HookCaller.has_spec, hsp]) hs
          have hs' : hc.has_spec = false := by simp [HookCaller.has_spec, hnone]
          cases hf : hc.getHookimpls.find? (fun i => !i.optionalhook) with
          | some i =>
              simp only [checkPendingLoop, hu', Bool.false_eq_true, if_false, hs', hf]
              constructor
              · intro h
                exact absurd h (by simp)
              · intro h
                exfalso
                have hi := List.mem_of_find?_eq_some hf
                have hpi := List.find?_some hf
                simp only [Bool.not_eq_true'] at hpi
                have := h (name, hc) (by simp) hu' hnone i hi
                rw [this] at hpi
                exact absurd hpi (by simp)
          | none =>
              simp only [checkPendingLoop, hu', Bool.false_eq_true, if_false, hs', hf]
              rw [ih]
              constructor
              · intro h x hx
                rcases List.mem_cons.mp hx with h1 | h1
                · subst h1
                  intro _ _ i hi
                  have := List.find?_eq_none.mp hf i hi
                  simp only [Bool.not_eq_true', Bool.not_eq_false] at this
                  exact this
                · exact h x h1
              · intro h x hx
                exact h x (List.mem_cons_of_mem _ hx)

theorem checkPendingLoop_error_names (l : List (String × HookCaller)) (e : PyError) :
    checkPendingLoop l = .error e →
      ∃ x ∈ l, nameHasUnderscoreHead x.1 = false ∧ x.2.spec = none ∧
        ∃ i ∈ x.2.getHookimpls, i.optionalhook = false
          ∧ e = .validationError (some i.pluginName) := by
  induction l with
  | nil => intro h; exact absurd h (by simp [checkPendingLoop])
  | cons kv rest ih =>
      obtain ⟨name, hc⟩ := kv
      intro h
      by_cases hu : nameHasUnderscoreHead name
      · simp only [checkPendingLoop, hu, if_true] at h
        obtain ⟨x, hx, hrest⟩ := ih h
        exact ⟨x, List.mem_cons_of_mem _ hx, hrest⟩
      · have hu' : nameHasUnderscoreHead name = false := by simp [hu]
        by_cases hs : hc.has_spec
        · simp only [checkPendingLoop, hu', Bool.false_eq_true, if_false, hs, if_true] at h
          obtain ⟨x, hx, hrest⟩ := ih h
          exact ⟨x, List.mem_cons_of_mem _ hx, hrest⟩
        · have hnone : hc.spec = none := by
            rcases hsp : hc.spec with _ | s
            · rfl
            · exact absurd (by simp [HookCaller.has_spec, hsp]) hs
          have hs' : hc.has_spec = false := by simp [HookCaller.has_spec, hnone]
          cases hf : hc.getHookimpls.find? (fun i => !i.optionalhook) with
          | some i =>
              simp only [checkPendingLoop, hu', Bool.false_eq_true, if_false, hs', hf] at h
              have hi := List.mem_of_find?_eq_some hf
              have hpi := List.find?_some hf
              simp only [Bool.not_eq_true'] at hpi
              refine ⟨(name, hc), by simp, hu', hnone, i, hi, hpi, ?_⟩
              have := h
              injection this with h1
              exact h1.symm
          | none =>
              simp only [checkPendingLoop, hu', Bool.false_eq_true, if_false, hs', hf] at h
              obtain ⟨x, hx, hrest⟩ := ih h
              exact ⟨x, List.mem_cons_of_mem _ hx, hrest⟩

/-- C6 amended: `check_pending` succeeds exactly when every implementation
of every spec-less hook caller whose name does not start with an underscore
is marked optional (hook names starting with an underscore share the
relay's namespace with its private attributes and are skipped); when it
raises, the unknown-hook validation error names a plugin that contributed a
non-optional implementation to such a spec-less hook. -/
theorem checkPending_unknown_hook_rule (m : PluginManager) :
    (checkPending m = .ok () ↔
       ∀ x ∈ m.hooks, nameHasUnderscoreHead x.1 = false → x.2.spec = none →
         ∀ i ∈ x.2.getHookimpls, i.optionalhook = true)
    ∧ (∀ e, checkPending m = .error e →
       ∃ x ∈ m.hooks, nameHasUnderscoreHead x.1 = false ∧ x.2.spec = none ∧
         ∃ i ∈ x.2.getHookimpls, i.optionalhook = false
           ∧ e = .validationError (some i.pluginName)) :=
  ⟨checkPendingLoop_ok_iff m.hooks, fun e => checkPendingLoop_error_names m.hooks e⟩

/-- C6 witness: on the empty manager, `check_pending` succeeds via the
amended rule. -/
theorem checkPending_unknown_hook_rule_witness :
    checkPending emptyManager = Except.ok () :=
  (checkPending_unknown_hook_rule emptyManager).1.mpr (by simp [emptyManager])

theorem lookup_updateHookCaller (l : List (String × HookCaller)) (n k : String)
    (f : HookCaller → HookCaller) :
    List.lookup k (updateHookCaller l n f)
      = if k = n then (List.lookup k l).map f else List.lookup k l := by
  induction l with
  | nil => by_cases h : k = n <;> simp [updateHookCaller, h]
  | cons kv rest ih =>
      obtain ⟨k0, v⟩ := kv
      by_cases h0 : k0 = n
      · have hb : (k0 == n) = true := by simp [h0]
        simp only [updateHookCaller, hb, if_true]
        by_cases hk : k = k0
        · have hkb : (k == k0) = true := by simp [hk]
          rw [hk, h0] at *
          simp [List.lookup]
        · have hkb : (k == k0) = false := by simp [hk]
          have hkn : k ≠ n := fun hcon => hk (hcon.trans h0.symm)
          simp [List.lookup, hkb, hkn]
      · have hb : (k0 == n) = false := by simp [h0]
        simp only [updateHookCaller, hb, Bool.false_eq_true, if_false]
        by_cases hk : k = k0
        · have hkb : (k == k0) = true := by simp [hk]
          have hkn : k ≠ n := fun hcon => h0 (hk.symm.trans hcon)
          simp [List.lookup, hkb, hkn]
        · have hkb : (k == k0) = false := by simp [hk]
          simp [List.lookup, hkb, ih]

theorem removePlugin_idem (hc : HookCaller) (obj : Nat) :
    (hc.removePlugin obj).removePlugin obj = hc.removePlugin obj := by
  simp [HookCaller.removePlugin, List.filter_filter]

theorem lookup_removeHooksForPlugin (names : List String)
    (hooks : List (String × HookCaller)) (obj : Nat) (k : String) :
    List.lookup k (removeHooksForPlugin hooks names obj)
      = if k ∈ names then (List.lookup k hooks).map (fun hc => hc.removePlugin obj)
        else List.lookup k hooks := by
  induction names generalizing hooks with
  | nil => simp [removeHooksForPlugin]
  | cons n names ih =>
      have hstep : removeHooksForPlugin hooks (n :: names) obj
          = removeHooksForPlugin
              (updateHookCaller hooks n (fun hc => hc.removePlugin obj)) names obj := by
        simp [removeHooksForPlugin]
      rw [hstep, ih, lookup_updateHookCaller]
      by_cases hk : k = n
      · simp only [hk, if_pos rfl, List.mem_cons, true_or, if_true]
        by_cases hm : n ∈ names
        · simp only [hm, if_true]
          cases List.lookup n hooks <;> simp [removePlugin_idem]
        · simp [hm]
      · have : (k ∈ n :: names) ↔ k ∈ names := by
          simp [List.mem_cons, hk]
        by_cases hm : k ∈ names <;> simp [hm, this, hk]

/-- C9: unregistering a registered plugin removes its record from the
plugin map, and in every hook caller it participates in exactly the
descriptors owned by its namespace object (by identity) are removed - the
caller keeps precisely the implementations of other owners, in their
original relative order (a filter of the original lists) - while hook
callers the plugin did not participate in are untouched. -/
theorem unregister_removes_only_owned (m : PluginManager) (n : String) (p : Plugin)
    (hne : n ≠ "") (hp : List.lookup n m.plugins = some p)
    (hnd : (m.plugins.map Prod.fst).Nodup) :
    (unregister m n none).result = .ok (some p)
    ∧ List.lookup n (unregister m n none).manager.plugins = none
    ∧ (∀ k, k ∈ p.hookcallers →
        List.lookup k (unregister m n none).manager.hooks
          = (List.lookup k m.hooks).map (fun hc =>
              { hc with
                  nonwrappers := hc.nonwrappers.filter fun i => !(i.plugin == p.object),
                  wrappers := hc.wrappers.filter fun i => !(i.plugin == p.object) }))
    ∧ (∀ k, k ∉ p.hookcallers →
        List.lookup k (unregister m n none).manager.hooks = List.lookup k m.hooks) := by
  rw [unregister_found m n p hne hp]
  refine ⟨rfl, ?_, ?_, ?_⟩
  · exact lookup_popPlugin_self _ _ hnd
  · intro k hk
    have h := lookup_removeHooksForPlugin p.hookcallers m.hooks p.object k
    rw [if_pos hk] at h
    exact h
  · intro k hk
    have h := lookup_removeHooksForPlugin p.hookcallers m.hooks p.object k
    rw [if_neg hk] at h
    exact h

/-- C9 witness: unregistering plugin "p9" removes its descriptor from the
shared hook caller, leaving the other plugin's implementation in place. -/
theorem unregister_removes_only_owned_witness :
    List.lookup "h" (unregister sharedManager "p9" none).manager.hooks
      = some ⟨"h", none, [otherImpl], []⟩ := by
  have h := (unregister_removes_only_owned sharedManager "p9" pluginP9 (by decide)
    (by decide) (by decide)).2.2.1 "h" (by decide)
  rw [h]
  decide

theorem lookup_setHookCaller_self (l : List (String × HookCaller)) (n : String)
    (hc : HookCaller) : List.lookup n (setHookCaller l n hc) = some hc := by
  induction l with
  | nil => simp [setHookCaller, List.lookup]
  | cons kv rest ih =>
      obtain ⟨k, v⟩ := kv
      by_cases hk : k = n
      · have hb : (k == n) = true := by simp [hk]
        simp [setHookCaller, hb, List.lookup]
      · have hb : (k == n) = false := by simp [hk]
        have hb' : (n == k) = false := by
          simp only [beq_eq_false_iff_ne, ne_eq]
          exact fun h => hk h.symm
        simp [setHookCaller, hb, List.lookup, hb', ih]

/-- C10: when `add_hookspecs` late-binds a specification onto an existing
hook caller and the retroactive validation of one of the caller's existing
implementations fails, the raised error leaves the specification bound on
the caller: the binding performed before validation is not rolled back, so
the registry state is changed although the call failed. -/
theorem addHookspecs_no_rollback_on_failure (m : PluginManager) (ns : PluginNamespace)
    (n : String) (sp : HookSpec) (hc : HookCaller) (e : PyError)
    (hspecs : ns.specs = [(n, sp)])
    (hhc : List.lookup n m.hooks = some hc)
    (hnospec : hc.spec = none)
    (hfail : verifyAll (hc.setSpecification sp)
        (hc.setSpecification sp).getHookimpls = .error e) :
    (addHookspecs m ns).1 = .error e
    ∧ List.lookup n ((addHookspecs m ns).2).hooks = some (hc.setSpecification sp)
    ∧ (hc.setSpecification sp).spec = some sp := by
  have hloop : addSpecsLoop m ns.specs []
      = (.error e, { m with hooks := setHookCaller m.hooks n (hc.setSpecification sp) }) := by
    rw [hspecs]
    simp only [addSpecsLoop, hhc, hfail]
  refine ⟨?_, ?_, rfl⟩
  · unfold addHookspecs
    rw [hloop]
  · unfold addHookspecs
    rw [hloop]
    exact lookup_setHookCaller_self _ _ _

/-- C10 witness: binding an argument-less specification onto a caller that
already holds an implementation requesting "x" fails validation, yet the
specification stays bound. -/
theorem addHookspecs_no_rollback_on_failure_witness :
    (addHookspecs pendingManager specNamespace).1
        = .error (.validationError (some "p10"))
    ∧ List.lookup "h" ((addHookspecs pendingManager specNamespace).2).hooks
        = some (pendingCaller.setSpecification emptySpec) := by
  have h := addHookspecs_no_rollback_on_failure pendingManager specNamespace "h" emptySpec
    pendingCaller (.validationError (some "p10")) (by decide) (by decide) (by decide)
    (by decide)
  exact ⟨h.1, h.2.1⟩

theorem registerLoop_blocked : ∀ (impls : List HookImpl) (m : PluginManager)
    (acc : List String), ((registerLoop m impls acc).2).blocked = m.blocked := by
  intro impls
  induction impls with
  | nil => intro m acc; rfl
  | cons i rest ih =>
      intro m acc
      simp only [registerLoop]
      cases h : List.lookup i.specname m.hooks with
      | none => exact ih _ _
      | some hc =>
          by_cases hs : hc.has_spec = true
          · simp only [hs, if_true]
            cases hv : verifyHook hc i with
            | error e => rfl
            | ok u => exact ih _ _
          · simp only [hs, Bool.false_eq_true, if_false]
            exact ih _ _

theorem register_eq_loop (m : PluginManager) (ns : PluginNamespace) (name : Option String)
    (h1 : m.isBlocked (name.getD ns.canonicalName) = false)
    (h2 : m.isRegisteredName (name.getD ns.canonicalName) = false)
    (h3 : m.isRegisteredObject ns.object = false) :
    register m ns name
      = (match registerLoop m (prepImpls ns (name.getD ns.canonicalName)) [] with
         | (.error e, m') => (.error e, m')
         | (.ok hcNames, m') =>
             (.ok (some (name.getD ns.canonicalName)),
               { m' with plugins := m'.plugins
                   ++ [(name.getD ns.canonicalName,
                        ⟨name.getD ns.canonicalName, ns.object, hcNames⟩)] })) := by
  simp only [register, h1, h2, h3, Bool.false_eq_true, if_false]

theorem register_blocked (m : PluginManager) (ns : PluginNamespace) (name : Option String) :
    ((register m ns name).2).blocked = m.blocked := by
  by_cases h1 : m.isBlocked (name.getD ns.canonicalName) = true
  · simp [register, h1]
  · by_cases h2 : m.isRegisteredName (name.getD ns.canonicalName) = true
    · simp [register, h1, h2]
    · by_cases h3 : m.isRegisteredObject ns.object = true
      · simp [register, h1, h2, h3]
      · rw [register_eq_loop m ns name (by simpa using h1) (by simpa using h2)
            (by simpa using h3)]
        have hb := registerLoop_blocked (prepImpls ns (name.getD ns.canonicalName)) m []
        rcases h : registerLoop m (prepImpls ns (name.getD ns.canonicalName)) [] with ⟨fst, m'⟩
        rw [h] at hb
        cases fst with
        | error e => simpa using hb
        | ok names => simpa using hb

theorem loadAndRegister_eq_error (m : PluginManager) (c : Candidate) (u : Unit)
    (h : c.load = .error u) :
    loadAndRegister m c = (.error (.importError (some c.name)), m) := by
  unfold loadAndRegister
  rw [h]

theorem loadAndRegister_eq_registered (m : PluginManager) (c : Candidate)
    (ns : PluginNamespace) (h : c.load = .ok ns)
    (hr : m.isRegisteredObject ns.object = true) :
    loadAndRegister m c = (.ok none, m) := by
  unfold loadAndRegister
  rw [h]
  simp [hr]

theorem loadAndRegister_eq_register (m : PluginManager) (c : Candidate)
    (ns : PluginNamespace) (h : c.load = .ok ns)
    (hr : m.isRegisteredObject ns.object = false) :
    loadAndRegister m c
      = (match register m ns (some c.name) with
         | (.ok r, m') => (.ok r, m')
         | (.error e, m') =>
             if e.isPluginError then (.error e, m')
             else (.error (.registrationError (some c.name)), m')) := by
  unfold loadAndRegister
  rw [h]
  simp [hr]

theorem loadAndRegister_blocked (m : PluginManager) (c : Candidate) :
    ((loadAndRegister m c).2).blocked = m.blocked := by
  cases hl : c.load with
  | error u => rw [loadAndRegister_eq_error m c u hl]
  | ok ns =>
      by_cases hr : m.isRegisteredObject ns.object = true
      · rw [loadAndRegister_eq_registered m c ns hl hr]
      · rw [loadAndRegister_eq_register m c ns hl (by simpa using hr)]
        have hb := register_blocked m ns (some c.name)
        rcases h : register m ns (some c.name) with ⟨fst, m'⟩
        rw [h] at hb
        cases fst with
        | ok r => simpa using hb
        | error e =>
            by_cases hpe : e.isPluginError = true
            · simpa [hpe] using hb
            · simpa [hpe] using hb

theorem loadAndRegister_error_isPluginError (m : PluginManager) (c : Candidate)
    (e : PyError) (m₁ : PluginManager) (h : loadAndRegister m c = (.error e, m₁)) :
    e.isPluginError = true := by
  cases hl : c.load with
  | error u =>
      rw [loadAndRegister_eq_error m c u hl] at h
      simp only [Prod.mk.injEq] at h
      obtain ⟨h1, _⟩ := h
      injection h1 with h1
      rw [← h1]
      rfl
  | ok ns =>
      by_cases hr : m.isRegisteredObject ns.object = true
      · rw [loadAndRegister_eq_registered m c ns hl hr] at h
        simp only [Prod.mk.injEq] at h
        exact absurd h.1 (by simp)
      · rw [loadAndRegister_eq_register m c ns hl (by simpa using hr)] at h
        rcases hreg : register m ns (some c.name) with ⟨fst, m'⟩
        rw [hreg] at h
        cases fst with
        | ok r =>
            simp only [Prod.mk.injEq] at h
            exact absurd h.1 (by simp)
        | error e0 =>
            by_cases hpe : e0.isPluginError = true
            · simp only [hpe, if_true, Prod.mk.injEq] at h
              obtain ⟨h1, _⟩ := h
              injection h1 with h1
              rw [← h1]
              exact hpe
            · simp only [hpe, Bool.false_eq_true, if_false, Prod.mk.injEq] at h
              obtain ⟨h1, _⟩ := h
              injection h1 with h1
              rw [← h1]
              rfl

theorem setBlocked_true_blocked_eq (m : PluginManager) (n : String) :
    (setBlocked m n true).blocked
      = if n ∈ m.blocked then m.blocked else m.blocked ++ [n] := by
  unfold setBlocked
  simp only [if_true]
  by_cases hreg : PluginManager.isRegisteredName
      { m with blocked := if n ∈ m.blocked then m.blocked else m.blocked ++ [n] } n = true
  · rw [if_pos hreg, unregister_preserves_blocked]
  · rw [if_neg hreg]

theorem setBlocked_true_mem_self (m : PluginManager) (n : String) :
    n ∈ (setBlocked m n true).blocked := by
  rw [setBlocked_true_blocked_eq]
  by_cases hc : n ∈ m.blocked
  · rw [if_pos hc]; exact hc
  · rw [if_neg hc]; exact List.mem_append_right _ (by simp)

theorem setBlocked_true_mem_mono (m : PluginManager) (n x : String)
    (h : x ∈ m.blocked) : x ∈ (setBlocked m n true).blocked := by
  rw [setBlocked_true_blocked_eq]
  by_cases hc : n ∈ m.blocked
  · rw [if_pos hc]; exact h
  · rw [if_neg hc]; exact List.mem_append_left _ h

theorem loadLoop_blocked_mono : ∀ (cs : List Candidate) (m : PluginManager) (count : Nat)
    (errs : List PyError) (ig : Bool) (x : String), x ∈ m.blocked →
    x ∈ ((loadLoop m cs count errs ig).2).blocked := by
  intro cs
  induction cs with
  | nil => intro m count errs ig x h; exact h
  | cons c rest ih =>
      intro m count errs ig x h
      simp only [loadLoop]
      by_cases hskip : (m.isRegisteredName c.name || m.isBlocked c.name) = true
      · simp only [hskip, if_true]
        exact ih _ _ _ _ _ h
      · simp only [hskip, Bool.false_eq_true, if_false]
        rcases hla : loadAndRegister m c with ⟨fst, m'⟩
        have hbl : m'.blocked = m.blocked := by
          have hx := loadAndRegister_blocked m c
          rw [hla] at hx
          exact hx
        cases fst with
        | ok r =>
            apply ih
            rw [hbl]
            exact h
        | error e =>
            have hm' : x ∈ m'.blocked := by rw [hbl]; exact h
            by_cases hpe : e.isPluginError = true
            · simp only [hpe, if_true]
              have hmem' : x ∈ (setBlocked m' c.name true).blocked :=
                setBlocked_true_mem_mono m' c.name x hm'
              cases ig with
              | true => exact ih _ _ _ _ _ hmem'
              | false => exact hmem'
            · simp only [hpe, Bool.false_eq_true, if_false]
              exact hm'

theorem loadLoop_ok_ignore : ∀ (cs : List Candidate) (m : PluginManager) (count : Nat)
    (errs : List PyError),
    ∃ cnt l, (loadLoop m cs count errs true).1 = .ok (cnt, l) ∧ ∀ x ∈ errs, x ∈ l := by
  intro cs
  induction cs with
  | nil => intro m count errs; exact ⟨count, errs, rfl, fun x h => h⟩
  | cons c rest ih =>
      intro m count errs
      simp only [loadLoop]
      by_cases hskip : (m.isRegisteredName c.name || m.isBlocked c.name) = true
      · simp only [hskip, if_true]
        exact ih _ _ _
      · simp only [hskip, Bool.false_eq_true, if_false]
        rcases hla : loadAndRegister m c with ⟨fst, m'⟩
        cases fst with
        | ok r => exact ih _ _ _
        | error e =>
            have hpe : e.isPluginError = true :=
              loadAndRegister_error_isPluginError m c e m' hla
            simp only [hpe, if_true]
            obtain ⟨cnt, l, h1, h2⟩ := ih (setBlocked m' c.name true) count (errs ++ [e])
            exact ⟨cnt, l, h1, fun x hx => h2 x (List.mem_append_left _ hx)⟩

theorem loadLoop_error_step (m : PluginManager) (c : Candidate) (rest : List Candidate)
    (count : Nat) (errs : List PyError) (e : PyError) (m₁ : PluginManager)
    (hskip : (m.isRegisteredName c.name || m.isBlocked c.name) = false)
    (herr : loadAndRegister m c = (.error e, m₁)) :
    loadLoop m (c :: rest) count errs true
      = loadLoop (setBlocked m₁ c.name true) rest count (errs ++ [e]) true
    ∧ loadLoop m (c :: rest) count errs false = (.error e, setBlocked m₁ c.name true) := by
  have hpe := loadAndRegister_error_isPluginError m c e m₁ herr
  constructor
  · simp only [loadLoop, hskip, Bool.false_eq_true, if_false, herr, hpe, if_true]
  · simp only [loadLoop, hskip, Bool.false_eq_true, if_false, herr, hpe, if_true]

/-- C7: in a discovery pass, when a candidate (not skipped as
already-registered or blocked) fails to load or register, then in the
default ignore-errors mode the error is collected into the returned error
list, the candidate's name is blocked in the resulting registry state, and
the pass continues with the remaining candidates; in fail-fast mode the
error is raised immediately and the pass aborts with no further candidate
processed. -/
theorem discovery_error_policy (m : PluginManager) (c : Candidate) (rest : List Candidate)
    (e : PyError) (m₁ : PluginManager)
    (hskip : (m.isRegisteredName c.name || m.isBlocked c.name) = false)
    (herr : loadAndRegister m c = (.error e, m₁)) :
    (∃ cnt errsf, (loadEntrypoints m (c :: rest) true).1 = .ok (cnt, errsf) ∧ e ∈ errsf)
    ∧ ((loadEntrypoints m (c :: rest) true).2).isBlocked c.name = true
    ∧ loadEntrypoints m (c :: rest) true
        = loadLoop (setBlocked m₁ c.name true) rest 0 [e] true
    ∧ loadEntrypoints m (c :: rest) false = (.error e, setBlocked m₁ c.name true) := by
  obtain ⟨hstep_t, hstep_f⟩ := loadLoop_error_step m c rest 0 [] e m₁ hskip herr
  have hstep_t' : loadEntrypoints m (c :: rest) true
      = loadLoop (setBlocked m₁ c.name true) rest 0 [e] true := by
    rw [loadEntrypoints, hstep_t]
    simp
  refine ⟨?_, ?_, hstep_t', by rw [loadEntrypoints, hstep_f]⟩
  · obtain ⟨cnt, l, h1, h2⟩ := loadLoop_ok_ignore rest (setBlocked m₁ c.name true) 0 [e]
    refine ⟨cnt, l, ?_, h2 e (by simp)⟩
    rw [hstep_t']
    exact h1
  · rw [hstep_t']
    have hmono := loadLoop_blocked_mono rest (setBlocked m₁ c.name true) 0 [e] true c.name
      (setBlocked_true_mem_self m₁ c.name)
    simp [PluginManager.isBlocked, hmono]

/-- C7 witness: a candidate whose load fails on the empty manager ends up
blocked after the ignore-errors discovery pass. -/
theorem discovery_error_policy_witness :
    ((loadEntrypoints emptyManager [badCandidate] true).2).isBlocked "bad" = true :=
  (discovery_error_policy emptyManager badCandidate [] (.importError (some "bad"))
    emptyManager (by decide) rfl).2.1

end Naplugi
